import Mathlib

/-!
Verification of the weekly reconciliation engine of `admin-panel-2`
(`src/backend/src/handlers/students/weekly_data.rs`).

The handler file is embedded shallowly: the in-memory `Table` is a
`List RowData`, the HTTP layer is a function from the request data to a
`HandlerOutcome`, the external submission source is an `Except` parameter,
and the per-row reconciliation loop is a structural recursion that threads
the group counter and the change flag exactly as the Rust loop does.
-/

namespace AdminPanel

/-- Modelled from the spec: the repository's `utils/types.rs` is not under
`src/`.  The spec (§3) describes `total` as an optional numeric score whose
comparison can be incomparable ("absent/incomparable numeric values sort as
equal"), i.e. a float-like value with a NaN-style element.  No arithmetic is
performed on `total` by the core, only comparison and copying, so a numeric
value is represented by an integer payload plus a distinguished incomparable
element. -/
inductive Val where
  | num (n : Int)
  | nan
deriving DecidableEq, Repr

/-- Rust `PartialOrd` on the float-like score: `nan` is incomparable with
everything, numbers compare numerically. -/
def partialCmpVal : Val → Val → Option Ordering
  | Val.num a, Val.num b => some (compare a b)
  | _, _ => none

/-- Rust `PartialOrd` on `Option` of the score: `None < Some _`,
`Some a` vs `Some b` defers to the payload comparison. -/
def partialCmpOptVal : Option Val → Option Val → Option Ordering
  | none, none => some Ordering.eq
  | none, some _ => some Ordering.lt
  | some _, none => some Ordering.gt
  | some a, some b => partialCmpVal a b

/-- Rust `PartialOrd`/`Ord` on `Option<String>` (derived order:
`None < Some _`, strings lexicographic).  `partial_cmp` on this type is
total, so it is returned as `some`. -/
def partialCmpOptStr : Option String → Option String → Option Ordering
  | none, none => some Ordering.eq
  | none, some _ => some Ordering.lt
  | some _, none => some Ordering.gt
  | some a, some b => some (compare a b)

/-- Modelled from the spec: the `RowData` struct of `utils/types.rs` is not
under `src/`; its fields are those read and written by
`weekly_data.rs` and listed in spec §3 (one student's record for one week). -/
structure RowData where
  name : String
  mail : String
  week : Int
  attendance : Option String
  group_id : String
  ta : Option String
  fa : Option Int
  fb : Option Int
  fc : Option Int
  fd : Option Int
  bonus_attempt : Option Int
  bonus_answer_quality : Option Int
  bonus_follow_up : Option Int
  exercise_submitted : Option String
  exercise_test_passing : Option String
  exercise_good_documentation : Option String
  exercise_good_structure : Option String
  total : Option Val
deriving DecidableEq, Repr

/-- Modelled from the spec: the `TA` enum of `handlers/auth.rs` is not under
`src/`.  The spec (§3, §8) fixes a distinguished reserved member `Setu` and a
round-robin pool of five further members; the spec does not give the other
members' names, so they carry placeholder identifiers here. -/
inductive TA where
  | Setu
  | Amber
  | Blue
  | Coral
  | Dune
  | Ember
deriving DecidableEq, Repr

/-- Modelled from the spec: `TA::all_variants()` enumerates the fixed TA set. -/
def TA.all_variants : List TA :=
  [TA.Setu, TA.Amber, TA.Blue, TA.Coral, TA.Dune, TA.Ember]

/-- Rendering of a TA identity as done by `format!("{:?}", ta)` in the
handler: the variant's name. -/
def taName : TA → String
  | TA.Setu => "Setu"
  | TA.Amber => "Amber"
  | TA.Blue => "Blue"
  | TA.Coral => "Coral"
  | TA.Dune => "Dune"
  | TA.Ember => "Ember"

/-- The TA pool used for present students: all variants except the reserved
`Setu` (lines 134-138 of `weekly_data.rs`). -/
def taPool : List TA := TA.all_variants.filter (fun ta => ta ≠ TA.Setu)

/-- Modelled from the spec: the `Assignment` struct of `utils/classroom.rs`
is not under `src/`.  Spec §3: `github_username`, string-encoded
`points_awarded`, a submission predicate and a week-pattern extractor. -/
structure Assignment where
  github_username : String
  points_awarded : String
  submitted : Bool
  week_pattern : Option Int
deriving DecidableEq, Repr

/-- The three-level comparator passed to `sort_by` at lines 118-128:
`b.attendance.partial_cmp(&a.attendance).unwrap_or(Equal)` then
`b.total.partial_cmp(&a.total).unwrap_or(Equal)` then `b.name.cmp(&a.name)`. -/
def rowCmp (a b : RowData) : Ordering :=
  ((partialCmpOptStr b.attendance a.attendance).getD Ordering.eq).then
    (((partialCmpOptVal b.total a.total).getD Ordering.eq).then
      (compare b.name a.name))

/-- The prior-week rows: the table filtered to `week - 1`, sorted with the
comparator above.  Rust's `sort_by` is a stable sort; it is modelled by the
structural stable insertion sort, which agrees with any stable sort for the
comparators in play. -/
def sortedPrev (t : List RowData) (week : Int) : List RowData :=
  List.insertionSort (fun a b => rowCmp a b ≠ Ordering.gt)
    (t.filter (fun r => r.week == week - 1))

/-- Rust `as usize` on a signed value: two's-complement reinterpretation
modulo `2 ^ 64`. -/
def usizeOfInt (i : Int) : Nat := (i % (2 : Int) ^ 64).toNat

/-- The group/TA allocation for one row (lines 147-163): "no" rows get the
fixed "Group 6"/"Setu" and leave the counter alone; "yes" rows advance the
counter every 6th index below 30 and every index from 30 on, then label by
`counter mod pool` and pick the TA at `(slot + week - 1) mod pool`; other
attendance values leave the row unchanged. -/
def allocStep (week : Int) (gid : Int) (index : Nat) (row : RowData) :
    RowData × Int :=
  if row.attendance = some "no" then
    ({ row with group_id := "Group 6", ta := some "Setu" }, gid)
  else if row.attendance = some "yes" then
    let gid2 := if index < 30 then (if index % 6 = 0 then gid + 1 else gid)
                else gid + 1
    let slot := usizeOfInt gid2 % taPool.length
    let assigned := taPool.getD ((slot + usizeOfInt week - 1) % taPool.length)
      TA.Setu
    ({ row with group_id := "Group " ++ toString (slot + 1),
                ta := some (taName assigned) }, gid2)
  else (row, gid)

/-- The field carry-over of lines 177-189: every mutable grading /
attendance / bonus / exercise / total field is taken from the existing
target-week row. -/
def carryFields (row ex : RowData) : RowData :=
  { row with
    attendance := ex.attendance
    fa := ex.fa
    fb := ex.fb
    fc := ex.fc
    fd := ex.fd
    bonus_attempt := ex.bonus_attempt
    bonus_answer_quality := ex.bonus_answer_quality
    bonus_follow_up := ex.bonus_follow_up
    exercise_submitted := ex.exercise_submitted
    exercise_test_passing := ex.exercise_test_passing
    exercise_good_documentation := ex.exercise_good_documentation
    exercise_good_structure := ex.exercise_good_structure
    total := ex.total }

/-- The default initialisation of lines 191-204 for a row with no existing
target-week record. -/
def defaultFill (row : RowData) : RowData :=
  { row with
    attendance := some "no"
    fa := some 0
    fb := some 0
    fc := some 0
    fd := some 0
    bonus_attempt := some 0
    bonus_answer_quality := some 0
    bonus_follow_up := some 0
    exercise_submitted := some "no"
    exercise_test_passing := some "no"
    exercise_good_documentation := some "no"
    exercise_good_structure := some "no"
    total := some (Val.num 0) }

/-- The merge step of lines 166-205: look up an existing row for
`(row.name, week)`; carry its fields over if present, otherwise default-fill
and flag the batch as changed. -/
def mergeStep (table : List RowData) (week : Int) (row : RowData) :
    RowData × Bool :=
  match table.find? (fun r => r.name == row.name && r.week == week) with
  | some ex => (carryFields row ex, false)
  | none => (defaultFill row, true)

/-- The enrichment step of lines 208-231: if the row's name resolves to a
submitted assignment whose week pattern equals the target week, the exercise
fields are recomputed, and the change flag is raised only when they differ
from the current values. -/
def enrichStep (week : Int) (lookup : String → Option Assignment)
    (row : RowData) : RowData × Bool :=
  match lookup row.name with
  | none => (row, false)
  | some a =>
    if a.week_pattern = some week then
      let ns : Option String := some "yes"
      let np : Option String :=
        some (if a.points_awarded = "100" then "yes" else "no")
      if row.exercise_submitted ≠ ns ∨ row.exercise_test_passing ≠ np then
        ({ row with exercise_submitted := ns, exercise_test_passing := np },
         true)
      else (row, false)
    else (row, false)

/-- One iteration of the loop at lines 147-235: allocate, stamp the target
week, merge with any existing target-week row, enrich from submissions.
Returns the derived row, the updated group counter, and whether this row
raised the change flag. -/
def processRow (week : Int) (lookup : String → Option Assignment)
    (table : List RowData) (gid : Int) (index : Nat) (p : RowData) :
    RowData × Int × Bool :=
  ((enrichStep week lookup (mergeStep table week
      { (allocStep week gid index p).1 with week := week }).1).1,
   (allocStep week gid index p).2,
   (mergeStep table week
      { (allocStep week gid index p).1 with week := week }).2 ||
     (enrichStep week lookup (mergeStep table week
      { (allocStep week gid index p).1 with week := week }).1).2)

/-- The whole enumerated loop: processes the indexed prior-week rows in
order, threading the group counter, and collects each derived row together
with its per-row change flag. -/
def processList (week : Int) (lookup : String → Option Assignment)
    (table : List RowData) (gid : Int) :
    List (Nat × RowData) → List (RowData × Bool) × Int
  | [] => ([], gid)
  | ip :: rest =>
    (((processRow week lookup table gid ip.1 ip.2).1,
      (processRow week lookup table gid ip.1 ip.2).2.2) ::
      (processList week lookup table
        (processRow week lookup table gid ip.1 ip.2).2.1 rest).1,
     (processList week lookup table
       (processRow week lookup table gid ip.1 ip.2).2.1 rest).2)

/-- Modelled from the spec: `Table::insert_or_update` of `utils/types.rs` is
not under `src/`.  Spec §3: if a row with the same `(name, week)` exists,
replace it in place; otherwise append. -/
def insert_or_update (t : List RowData) (row : RowData) : List RowData :=
  match t with
  | [] => [row]
  | r :: rs =>
    if r.name == row.name && r.week == row.week then row :: rs
    else r :: insert_or_update rs row

/-- The name→assignment mapping built at lines 96-105: only submitted
assignments are considered, each is keyed by the participant name its GitHub
username resolves to, and a later entry overwrites an earlier one
(`HashMap::insert`), so a lookup returns the last matching assignment. -/
def lookupAsgn (resolve : String → Option String) (asgns : List Assignment)
    (n : String) : Option Assignment :=
  ((asgns.filter (fun a => a.submitted)).filter
    (fun a => resolve a.github_username = some n)).getLast?

/-- The outcome of one reconciliation run (lines 107-256): the derived rows
returned to the client, the table after the batch of `insert_or_update`
calls, the batch change flag, and whether the durable store was written
(lines 245-253: exactly when the change flag is set). -/
structure ReconcileResult where
  rows : List RowData
  table : List RowData
  changed : Bool
  wrote : Bool
deriving Repr

/-- The reconciliation for a target week: sort the prior week's rows,
process them in order starting from group counter `-1`, batch
`insert_or_update` every derived row, and write the durable store exactly
when the change flag was raised. -/
def reconcile (week : Int) (lookup : String → Option Assignment)
    (t : List RowData) : ReconcileResult :=
  { rows := (processList week lookup t (-1) (sortedPrev t week).enum).1.map
      Prod.fst
    table := List.foldl insert_or_update t
      ((processList week lookup t (-1) (sortedPrev t week).enum).1.map
        Prod.fst)
    changed := (processList week lookup t (-1)
      (sortedPrev t week).enum).1.any Prod.snd
    wrote := (processList week lookup t (-1)
      (sortedPrev t week).enum).1.any Prod.snd }

/-- The HTTP responses the handler can produce.  `serverError` is the 5xx
channel of the web framework; the handler itself never constructs it. -/
inductive Response where
  | unauthorized
  | okRows (rows : List RowData)
  | badRequest (msg : String)
  | serverError (msg : String)
deriving DecidableEq, Repr

/-- A handler run either produces a response or dies in a panic (the
`unwrap` at line 93 when the submission fetch fails).  Both carry the table
state afterwards and whether the durable store was written. -/
inductive HandlerOutcome where
  | resp (r : Response) (table : List RowData) (wrote : Bool)
  | panic (table : List RowData) (wrote : Bool)
deriving DecidableEq, Repr

/-- The `GET /weekly_data/{week}` handler (lines 53-264): token check, the
week-0 passthrough when the table is non-empty, the reconciliation for
`week ≥ 1` (panicking if the submission fetch failed), and the 400 fallback. -/
def get_weekly_data_or_common (authHeader : Option String)
    (authToken : String) (week : Int)
    (fetch : Except Unit (List Assignment))
    (resolve : String → Option String) (t : List RowData) : HandlerOutcome :=
  if authHeader ≠ some authToken then
    HandlerOutcome.resp Response.unauthorized t false
  else if week = 0 ∧ t ≠ [] then
    HandlerOutcome.resp
      (Response.okRows (t.filter (fun r => r.week == 0))) t false
  else if 1 ≤ week then
    match fetch with
    | Except.error _ => HandlerOutcome.panic t false
    | Except.ok asgns =>
      let res := reconcile week (lookupAsgn resolve asgns) t
      HandlerOutcome.resp (Response.okRows res.rows) res.table res.wrote
  else
    HandlerOutcome.resp (Response.badRequest "Invalid week number") t false

/-- The `POST /del/{week}` handler's core (lines 303-344): remove the first
row matching the request on `(name, mail, week)` if any; report whether a
deletion (and hence a durable write) happened, with the exact success
message of either branch. -/
def delete_data (del : RowData) : List RowData → List RowData × Bool × String
  | [] => ([], false, "No matching data found to delete")
  | r :: rs =>
    if r.name == del.name && r.mail == del.mail && r.week == del.week then
      (rs, true, "Weekly data deleted successfully")
    else
      let res := delete_data del rs
      (r :: res.1, res.2.1, res.2.2)

/-- Lookup of the unique row for a `(name, week)` key, as performed by the
merge step (lines 167-174). -/
def findKey (t : List RowData) (n : String) (w : Int) : Option RowData :=
  t.find? (fun r => r.name == n && r.week == w)

/-- The per-row results of one reconciliation pass: each derived row paired
with the flag saying whether it was default-initialised by the merge step or
had its exercise values changed by the enrichment step. -/
def processedPairs (week : Int) (lookup : String → Option Assignment)
    (t : List RowData) : List (RowData × Bool) :=
  (processList week lookup t (-1) (sortedPrev t week).enum).1

/-- The attendance level of the comparator, as the spec words it:
descending by the attendance value. -/
def specAttendanceLevel (a b : RowData) : Ordering :=
  (partialCmpOptStr b.attendance a.attendance).getD Ordering.eq

/-- The total level of the comparator, as the spec words it: descending by
`total`, with absent or incomparable numeric values comparing as equal. -/
def specTotalLevel (a b : RowData) : Ordering :=
  match partialCmpOptVal b.total a.total with
  | some o => o
  | none => Ordering.eq

/-- The name level of the comparator, as the spec words it: descending by
name, the final tie-break. -/
def specNameLevel (a b : RowData) : Ordering := compare b.name a.name

/-- The three-level comparator exactly as the spec sentence describes it. -/
def specRowCmp (a b : RowData) : Ordering :=
  (specAttendanceLevel a b).then ((specTotalLevel a b).then (specNameLevel a b))

/-- The data-model invariant of spec §3: at most one row per
`(name, week)` pair. -/
abbrev uniqueKeys (t : List RowData) : Prop :=
  (t.map (fun r => (r.name, r.week))).Nodup

/-- A row with every optional field absent, used to build concrete inputs. -/
def blankRow : RowData :=
  { name := "", mail := "", week := 0, attendance := none, group_id := "",
    ta := none, fa := none, fb := none, fc := none, fd := none,
    bonus_attempt := none, bonus_answer_quality := none,
    bonus_follow_up := none, exercise_submitted := none,
    exercise_test_passing := none, exercise_good_documentation := none,
    exercise_good_structure := none, total := none }

/-- A week-1 row whose attendance is "yes". -/
def yesRow : RowData := { blankRow with name := "a", week := 1, attendance := some "yes" }

/-- A row whose attendance is "no". -/
def noRow : RowData := { blankRow with name := "z", week := 4, attendance := some "no" }

/-- The concrete prior-week input of the allocator determinism scenario:
36 present week-1 rows. -/
def t36 : List RowData := List.replicate 36 yesRow

/-- The group labels the code actually produces on `t36` for week 2: five
groups of six for indices 0-29, then singleton groups whose labels wrap
around the five pool slots. -/
def groupLabels36 : List String :=
  List.replicate 6 "Group 1" ++ List.replicate 6 "Group 2" ++
  List.replicate 6 "Group 3" ++ List.replicate 6 "Group 4" ++
  List.replicate 6 "Group 5" ++
  ["Group 1", "Group 2", "Group 3", "Group 4", "Group 5", "Group 1"]

/-- The TA names the code actually produces on `t36` for week 2: pool slot
`(slot + week - 1) mod 5`, i.e. shifted by one. -/
def taLabels36 : List (Option String) :=
  List.replicate 6 (some "Blue") ++ List.replicate 6 (some "Coral") ++
  List.replicate 6 (some "Dune") ++ List.replicate 6 (some "Ember") ++
  List.replicate 6 (some "Amber") ++
  [some "Blue", some "Coral", some "Dune", some "Ember", some "Amber",
   some "Blue"]

/-- A concrete existing week-2 row with human-entered grades. -/
def exB : RowData :=
  { blankRow with
    name := "b"
    week := 2
    attendance := some "yes"
    fa := some 7
    total := some (Val.num 9) }

/-- A concrete week-1 row for the same student. -/
def rowB : RowData := { blankRow with name := "b", week := 1 }

/-- A concrete submitted assignment with full points for week 3. -/
def a100 : Assignment :=
  { github_username := "g", points_awarded := "100", submitted := true,
    week_pattern := some 3 }

/-- A concrete name→assignment map sending "c" to `a100`. -/
def lookupC (n : String) : Option Assignment :=
  if n = "c" then some a100 else none

/-- A concrete row named "c". -/
def rowC : RowData := { blankRow with name := "c" }

/-- A row with an incomparable (NaN) total. -/
def nanRow : RowData := { blankRow with total := some Val.nan }

/-- A row with a numeric total. -/
def numRow : RowData := { blankRow with total := some (Val.num 5) }

/-- The delete request of the spec's delete scenario. -/
def delAnn : RowData :=
  { blankRow with name := "Ann", mail := "a@x.com", week := 3 }

/-- A present week-0 row, prior-week input for a week-1 reconciliation. -/
def w0Row : RowData :=
  { blankRow with name := "w", week := 0, attendance := some "yes" }

/-- The allocation step never changes the row's name. -/
theorem allocStep_name (week gid : Int) (i : Nat) (p : RowData) :
    (allocStep week gid i p).1.name = p.name := by
  unfold allocStep
  repeat' split
  all_goals simp

/-- The allocation step never changes the row's mail. -/
theorem allocStep_mail (week gid : Int) (i : Nat) (p : RowData) :
    (allocStep week gid i p).1.mail = p.mail := by
  unfold allocStep
  repeat' split
  all_goals simp

/-- The merge step never changes the row's name. -/
theorem mergeStep_name (t : List RowData) (week : Int) (r : RowData) :
    (mergeStep t week r).1.name = r.name := by
  unfold mergeStep
  cases t.find? (fun rr => rr.name == r.name && rr.week == week) <;>
    simp [carryFields, defaultFill]

/-- The merge step never changes the row's mail. -/
theorem mergeStep_mail (t : List RowData) (week : Int) (r : RowData) :
    (mergeStep t week r).1.mail = r.mail := by
  unfold mergeStep
  cases t.find? (fun rr => rr.name == r.name && rr.week == week) <;>
    simp [carryFields, defaultFill]

/-- The merge step never changes the row's week stamp. -/
theorem mergeStep_week (t : List RowData) (week : Int) (r : RowData) :
    (mergeStep t week r).1.week = r.week := by
  unfold mergeStep
  cases t.find? (fun rr => rr.name == r.name && rr.week == week) <;>
    simp [carryFields, defaultFill]

/-- The merge step never changes the row's group label. -/
theorem mergeStep_group_id (t : List RowData) (week : Int) (r : RowData) :
    (mergeStep t week r).1.group_id = r.group_id := by
  unfold mergeStep
  cases t.find? (fun rr => rr.name == r.name && rr.week == week) <;>
    simp [carryFields, defaultFill]

/-- The merge step never changes the row's TA. -/
theorem mergeStep_ta (t : List RowData) (week : Int) (r : RowData) :
    (mergeStep t week r).1.ta = r.ta := by
  unfold mergeStep
  cases t.find? (fun rr => rr.name == r.name && rr.week == week) <;>
    simp [carryFields, defaultFill]

/-- The enrichment step never changes the row's name. -/
theorem enrichStep_name (week : Int) (lookup : String → Option Assignment)
    (r : RowData) : (enrichStep week lookup r).1.name = r.name := by
  unfold enrichStep
  cases h : lookup r.name
  all_goals simp only [h]
  all_goals repeat' split
  all_goals simp

/-- The enrichment step never changes the row's mail. -/
theorem enrichStep_mail (week : Int) (lookup : String → Option Assignment)
    (r : RowData) : (enrichStep week lookup r).1.mail = r.mail := by
  unfold enrichStep
  cases h : lookup r.name
  all_goals simp only [h]
  all_goals repeat' split
  all_goals simp

/-- The enrichment step never changes the row's week stamp. -/
theorem enrichStep_week (week : Int) (lookup : String → Option Assignment)
    (r : RowData) : (enrichStep week lookup r).1.week = r.week := by
  unfold enrichStep
  cases h : lookup r.name
  all_goals simp only [h]
  all_goals repeat' split
  all_goals simp

/-- The enrichment step never changes the row's group label. -/
theorem enrichStep_group_id (week : Int)
    (lookup : String → Option Assignment) (r : RowData) :
    (enrichStep week lookup r).1.group_id = r.group_id := by
  unfold enrichStep
  cases h : lookup r.name
  all_goals simp only [h]
  all_goals repeat' split
  all_goals simp

/-- The enrichment step never changes the row's TA. -/
theorem enrichStep_ta (week : Int) (lookup : String → Option Assignment)
    (r : RowData) : (enrichStep week lookup r).1.ta = r.ta := by
  unfold enrichStep
  cases h : lookup r.name
  all_goals simp only [h]
  all_goals repeat' split
  all_goals simp

/-- When a target-week row exists for the key, the merge step carries its
fields over and raises no flag. -/
theorem mergeStep_of_found (t : List RowData) (week : Int) (row ex : RowData)
    (h : findKey t row.name week = some ex) :
    mergeStep t week row = (carryFields row ex, false) := by
  unfold mergeStep
  unfold findKey at h
  rw [h]

/-- When no target-week row exists for the key, the merge step
default-fills the row and raises the flag. -/
theorem mergeStep_of_none (t : List RowData) (week : Int) (row : RowData)
    (h : findKey t row.name week = none) :
    mergeStep t week row = (defaultFill row, true) := by
  unfold mergeStep
  unfold findKey at h
  rw [h]

/-- Running the enrichment step on its own output changes nothing and
raises no flag. -/
theorem enrichStep_idem (week : Int) (lookup : String → Option Assignment)
    (row : RowData) :
    enrichStep week lookup (enrichStep week lookup row).1 =
      ((enrichStep week lookup row).1, false) := by
  cases h : lookup row.name with
  | none =>
    unfold enrichStep
    simp [h]
  | some a =>
    unfold enrichStep
    simp only [h]
    by_cases hp : a.week_pattern = some week
    · simp only [if_pos hp]
      by_cases hd : row.exercise_submitted ≠ some "yes" ∨
          row.exercise_test_passing ≠
            some (if a.points_awarded = "100" then "yes" else "no")
      · rw [if_pos hd]
        simp [h, hp]
      · rw [if_neg hd]
        simp only [h]
        rw [if_pos hp, if_neg hd]
    · simp [h, hp]

/-- C1.  The claim says the six singleton groups after index 29 are
labelled "Group 6" through "Group 11".  On 36 present week-1 rows with
target week 2, the code labels the singleton group at index 30 by
`group_counter mod pool_size`, which has wrapped around to slot 0, so the
label is "Group 1", not "Group 6". -/
theorem c1_counterexample :
    ¬ (((reconcile 2 (fun _ => none) t36).rows.map
        (fun r => r.group_id)).get? 30 = some "Group 6") := by
  intro h
  rw [show ((reconcile 2 (fun _ => none) t36).rows.map
      (fun r => r.group_id)).get? 30 = some "Group 1" from rfl] at h
  exact absurd h (by decide)

/-- C1 (amended).  For 36 present prior-week rows and target week 2 with
the 5-member TA pool, rows 0-29 form five groups of six labelled "Group 1"
through "Group 5" with the TA chosen at pool slot `(slot + week - 1) mod 5`
(shifted by one), and rows 30-35 form six singleton groups whose labels and
TAs continue the same modulo-5 slot cycle, wrapping around to "Group 1"
rather than counting on to "Group 11". -/
theorem c1_amended_allocation :
    (reconcile 2 (fun _ => none) t36).rows.map (fun r => r.group_id) =
      groupLabels36 ∧
    (reconcile 2 (fun _ => none) t36).rows.map (fun r => r.ta) =
      taLabels36 :=
  ⟨rfl, rfl⟩

/-- C4.  Any prior-week row with attendance "no", at any index, any group
counter state and any target week, is assigned the fixed label "Group 6"
and TA "Setu", and the running group counter is not advanced by it. -/
theorem c4_absent_row_fixed_group (week : Int)
    (lookup : String → Option Assignment) (table : List RowData)
    (gid : Int) (i : Nat) (p : RowData) (h : p.attendance = some "no") :
    (processRow week lookup table gid i p).1.group_id = "Group 6" ∧
    (processRow week lookup table gid i p).1.ta = some "Setu" ∧
    (processRow week lookup table gid i p).2.1 = gid := by
  have ha : allocStep week gid i p =
      ({ p with group_id := "Group 6", ta := some "Setu" }, gid) := by
    unfold allocStep
    rw [if_pos h]
  unfold processRow
  rw [ha]
  refine ⟨?_, ?_, rfl⟩
  · rw [enrichStep_group_id, mergeStep_group_id]
  · rw [enrichStep_ta, mergeStep_ta]

/-- C4 witness: a concrete "no" row at index 17 with counter 3 keeps the
counter and gets "Group 6"/"Setu". -/
theorem c4_witness :
    (processRow 5 (fun _ => none) [] 3 17 noRow).1.group_id = "Group 6" ∧
    (processRow 5 (fun _ => none) [] 3 17 noRow).1.ta = some "Setu" ∧
    (processRow 5 (fun _ => none) [] 3 17 noRow).2.1 = 3 :=
  c4_absent_row_fixed_group 5 (fun _ => none) [] 3 17 noRow rfl

/-- C2.  The merge step of the reconciliation: if a row for
`(row.name, week)` exists in the table, the derived row's attendance,
grading, bonus, exercise and total fields are exactly the existing row's
values and no change is flagged; if none exists, those fields are the
submission-free defaults ("no"/0) and the batch change flag is raised. -/
theorem c2_merge_carries_or_defaults (table : List RowData) (week : Int)
    (row : RowData) :
    (∀ ex, findKey table row.name week = some ex →
      ((mergeStep table week row).1.attendance = ex.attendance ∧
       (mergeStep table week row).1.fa = ex.fa ∧
       (mergeStep table week row).1.fb = ex.fb ∧
       (mergeStep table week row).1.fc = ex.fc ∧
       (mergeStep table week row).1.fd = ex.fd ∧
       (mergeStep table week row).1.bonus_attempt = ex.bonus_attempt ∧
       (mergeStep table week row).1.bonus_answer_quality =
         ex.bonus_answer_quality ∧
       (mergeStep table week row).1.bonus_follow_up = ex.bonus_follow_up ∧
       (mergeStep table week row).1.exercise_submitted =
         ex.exercise_submitted ∧
       (mergeStep table week row).1.exercise_test_passing =
         ex.exercise_test_passing ∧
       (mergeStep table week row).1.exercise_good_documentation =
         ex.exercise_good_documentation ∧
       (mergeStep table week row).1.exercise_good_structure =
         ex.exercise_good_structure ∧
       (mergeStep table week row).1.total = ex.total) ∧
      (mergeStep table week row).2 = false) ∧
    (findKey table row.name week = none →
      ((mergeStep table week row).1.attendance = some "no" ∧
       (mergeStep table week row).1.fa = some 0 ∧
       (mergeStep table week row).1.fb = some 0 ∧
       (mergeStep table week row).1.fc = some 0 ∧
       (mergeStep table week row).1.fd = some 0 ∧
       (mergeStep table week row).1.bonus_attempt = some 0 ∧
       (mergeStep table week row).1.bonus_answer_quality = some 0 ∧
       (mergeStep table week row).1.bonus_follow_up = some 0 ∧
       (mergeStep table week row).1.exercise_submitted = some "no" ∧
       (mergeStep table week row).1.exercise_test_passing = some "no" ∧
       (mergeStep table week row).1.exercise_good_documentation =
         some "no" ∧
       (mergeStep table week row).1.exercise_good_structure = some "no" ∧
       (mergeStep table week row).1.total = some (Val.num 0)) ∧
      (mergeStep table week row).2 = true) := by
  constructor
  · intro ex h
    rw [mergeStep_of_found table week row ex h]
    simp [carryFields]
  · intro h
    rw [mergeStep_of_none table week row h]
    simp [defaultFill]

/-- C2 witness: a week-1 row for "b" merged against a table holding a
week-2 record carries that record's fields; merged against the empty table
it gets the defaults and flags the change. -/
theorem c2_witness :
    (((mergeStep [exB] 2 rowB).1.attendance = exB.attendance ∧
      (mergeStep [exB] 2 rowB).1.fa = exB.fa ∧
      (mergeStep [exB] 2 rowB).1.fb = exB.fb ∧
      (mergeStep [exB] 2 rowB).1.fc = exB.fc ∧
      (mergeStep [exB] 2 rowB).1.fd = exB.fd ∧
      (mergeStep [exB] 2 rowB).1.bonus_attempt = exB.bonus_attempt ∧
      (mergeStep [exB] 2 rowB).1.bonus_answer_quality =
        exB.bonus_answer_quality ∧
      (mergeStep [exB] 2 rowB).1.bonus_follow_up = exB.bonus_follow_up ∧
      (mergeStep [exB] 2 rowB).1.exercise_submitted =
        exB.exercise_submitted ∧
      (mergeStep [exB] 2 rowB).1.exercise_test_passing =
        exB.exercise_test_passing ∧
      (mergeStep [exB] 2 rowB).1.exercise_good_documentation =
        exB.exercise_good_documentation ∧
      (mergeStep [exB] 2 rowB).1.exercise_good_structure =
        exB.exercise_good_structure ∧
      (mergeStep [exB] 2 rowB).1.total = exB.total) ∧
     (mergeStep [exB] 2 rowB).2 = false) ∧
    (((mergeStep [] 2 rowB).1.attendance = some "no" ∧
      (mergeStep [] 2 rowB).1.fa = some 0 ∧
      (mergeStep [] 2 rowB).1.fb = some 0 ∧
      (mergeStep [] 2 rowB).1.fc = some 0 ∧
      (mergeStep [] 2 rowB).1.fd = some 0 ∧
      (mergeStep [] 2 rowB).1.bonus_attempt = some 0 ∧
      (mergeStep [] 2 rowB).1.bonus_answer_quality = some 0 ∧
      (mergeStep [] 2 rowB).1.bonus_follow_up = some 0 ∧
      (mergeStep [] 2 rowB).1.exercise_submitted = some "no" ∧
      (mergeStep [] 2 rowB).1.exercise_test_passing = some "no" ∧
      (mergeStep [] 2 rowB).1.exercise_good_documentation = some "no" ∧
      (mergeStep [] 2 rowB).1.exercise_good_structure = some "no" ∧
      (mergeStep [] 2 rowB).1.total = some (Val.num 0)) ∧
     (mergeStep [] 2 rowB).2 = true) :=
  ⟨(c2_merge_carries_or_defaults [exB] 2 rowB).1 exB (by decide),
   (c2_merge_carries_or_defaults [] 2 rowB).2 (by decide)⟩

/-- C3.  For a row whose name maps to a submitted assignment: if the
assignment's week pattern equals the target week, enrichment sets
`exercise_submitted` to "yes", sets `exercise_test_passing` to "yes" iff
`points_awarded` is "100" (else "no"), and flags a change exactly when
those two values differ from the row's current ones; if the week pattern
differs, the row is left untouched with no flag. -/
theorem c3_enrichment_sets_exercise_fields (week : Int)
    (lookup : String → Option Assignment) (row : RowData) (a : Assignment)
    (h : lookup row.name = some a) :
    (a.week_pattern = some week →
      ((enrichStep week lookup row).1.exercise_submitted = some "yes" ∧
       ((enrichStep week lookup row).1.exercise_test_passing = some "yes" ↔
         a.points_awarded = "100") ∧
       (enrichStep week lookup row).1.exercise_test_passing =
         some (if a.points_awarded = "100" then "yes" else "no") ∧
       ((enrichStep week lookup row).2 = true ↔
         (row.exercise_submitted ≠ some "yes" ∨
          row.exercise_test_passing ≠
            some (if a.points_awarded = "100" then "yes" else "no"))))) ∧
    (¬ a.week_pattern = some week →
      enrichStep week lookup row = (row, false)) := by
  constructor
  · intro hp
    unfold enrichStep
    simp only [h, if_pos hp]
    by_cases hd : row.exercise_submitted ≠ some "yes" ∨
        row.exercise_test_passing ≠
          some (if a.points_awarded = "100" then "yes" else "no")
    · rw [if_pos hd]
      refine ⟨rfl, ?_, rfl, by simp [hd]⟩
      by_cases hq : a.points_awarded = "100" <;> simp [hq]
    · rw [if_neg hd]
      push_neg at hd
      refine ⟨hd.1, ?_, hd.2, by simp [hd.1, hd.2]⟩
      rw [hd.2]
      by_cases hq : a.points_awarded = "100" <;> simp [hq]
  · intro hp
    unfold enrichStep
    simp only [h, if_neg hp]

/-- C3 witness: the full-points week-3 assignment of "c" enriches a blank
row for week 3 (flagging the change), and leaves it untouched for
week 4. -/
theorem c3_witness :
    ((enrichStep 3 lookupC rowC).1.exercise_submitted = some "yes" ∧
     ((enrichStep 3 lookupC rowC).1.exercise_test_passing = some "yes" ↔
       a100.points_awarded = "100") ∧
     (enrichStep 3 lookupC rowC).1.exercise_test_passing =
       some (if a100.points_awarded = "100" then "yes" else "no") ∧
     ((enrichStep 3 lookupC rowC).2 = true ↔
       (rowC.exercise_submitted ≠ some "yes" ∨
        rowC.exercise_test_passing ≠
          some (if a100.points_awarded = "100" then "yes" else "no")))) ∧
    enrichStep 4 lookupC rowC = (rowC, false) :=
  ⟨(c3_enrichment_sets_exercise_fields 3 lookupC rowC a100 rfl).1 rfl,
   (c3_enrichment_sets_exercise_fields 4 lookupC rowC a100 rfl).2
     (by decide)⟩

/-- C5.  The prior-week rows are sorted before allocation by the code's
comparator, which coincides with the spec's three-level description:
descending by attendance, then descending by total, then descending by
name; and at the total level, two absent totals, or totals that are
numerically incomparable, compare as equal. -/
theorem c5_sort_comparator :
    (∀ a b : RowData, rowCmp a b = specRowCmp a b) ∧
    (∀ (t : List RowData) (w : Int), sortedPrev t w =
      List.insertionSort (fun a b => rowCmp a b ≠ Ordering.gt)
        (t.filter (fun r => r.week == w - 1))) ∧
    (∀ a b : RowData, a.total = none → b.total = none →
      specTotalLevel a b = Ordering.eq) ∧
    (∀ (a b : RowData) (x y : Val), a.total = some x → b.total = some y →
      partialCmpVal y x = none → specTotalLevel a b = Ordering.eq) := by
  refine ⟨?_, fun t w => rfl, ?_, ?_⟩
  · intro a b
    unfold rowCmp specRowCmp specAttendanceLevel specTotalLevel specNameLevel
    cases partialCmpOptVal b.total a.total <;> simp
  · intro a b h1 h2
    simp [specTotalLevel, h1, h2, partialCmpOptVal]
  · intro a b x y h1 h2 h3
    simp [specTotalLevel, h1, h2, partialCmpOptVal, h3]

/-- C5 witness: the comparator equality at two concrete rows, both-absent
totals comparing as equal, and a NaN total comparing as equal against a
numeric one. -/
theorem c5_witness :
    rowCmp blankRow yesRow = specRowCmp blankRow yesRow ∧
    specTotalLevel blankRow yesRow = Ordering.eq ∧
    specTotalLevel nanRow numRow = Ordering.eq :=
  ⟨c5_sort_comparator.1 blankRow yesRow,
   c5_sort_comparator.2.2.1 blankRow yesRow rfl rfl,
   c5_sort_comparator.2.2.2 nanRow numRow Val.nan (Val.num 5) rfl rfl rfl⟩

/-- Deleting with no matching row is a no-op that reports the "no matching
data" message. -/
theorem delete_data_no_match (del : RowData) :
    ∀ t : List RowData,
    (∀ r ∈ t, ¬ (r.name = del.name ∧ r.mail = del.mail ∧
      r.week = del.week)) →
    delete_data del t = (t, false, "No matching data found to delete") := by
  intro t
  induction t with
  | nil => intro _; rfl
  | cons r rs ih =>
    intro h
    have hr : ¬ (r.name == del.name && r.mail == del.mail &&
        r.week == del.week) = true := by
      simp only [Bool.and_eq_true, beq_iff_eq]
      rintro ⟨⟨h1, h2⟩, h3⟩
      exact h r (by simp) ⟨h1, h2, h3⟩
    unfold delete_data
    rw [if_neg hr, ih (fun x hx => h x (List.mem_cons_of_mem r hx))]

/-- Deleting when the first matching row sits between `l1` and `l2`
removes exactly that row and reports the deletion. -/
theorem delete_data_first_match (del r : RowData)
    (hr : r.name = del.name ∧ r.mail = del.mail ∧ r.week = del.week) :
    ∀ l1 l2 : List RowData,
    (∀ x ∈ l1, ¬ (x.name = del.name ∧ x.mail = del.mail ∧
      x.week = del.week)) →
    delete_data del (l1 ++ r :: l2) =
      (l1 ++ l2, true, "Weekly data deleted successfully") := by
  intro l1
  induction l1 with
  | nil =>
    intro l2 _
    show delete_data del (r :: l2) = _
    unfold delete_data
    rw [if_pos (by simp [hr.1, hr.2.1, hr.2.2])]
    simp
  | cons x xs ih =>
    intro l2 hl
    have hx : ¬ (x.name == del.name && x.mail == del.mail &&
        x.week == del.week) = true := by
      simp only [Bool.and_eq_true, beq_iff_eq]
      rintro ⟨⟨h1, h2⟩, h3⟩
      exact hl x (by simp) ⟨h1, h2, h3⟩
    show delete_data del (x :: (xs ++ r :: l2)) = _
    unfold delete_data
    rw [if_neg hx, ih l2 (fun y hy => hl y (List.mem_cons_of_mem x hy))]
    simp

/-- C9.  A delete request removing a row by `(name, mail, week)`: with no
matching row the table is unchanged, no durable write happens, and the
success message says no matching data was found; with a (first) matching
row, exactly that row is removed, the durable write is triggered, and the
deletion success message is returned. -/
theorem c9_delete_noop_or_single_removal (del : RowData)
    (t : List RowData) :
    ((∀ r ∈ t, ¬ (r.name = del.name ∧ r.mail = del.mail ∧
       r.week = del.week)) →
      delete_data del t = (t, false, "No matching data found to delete")) ∧
    (∀ (l1 l2 : List RowData) (r : RowData), t = l1 ++ r :: l2 →
      (r.name = del.name ∧ r.mail = del.mail ∧ r.week = del.week) →
      (∀ x ∈ l1, ¬ (x.name = del.name ∧ x.mail = del.mail ∧
        x.week = del.week)) →
      delete_data del t =
        (l1 ++ l2, true, "Weekly data deleted successfully")) := by
  refine ⟨delete_data_no_match del t, ?_⟩
  intro l1 l2 r ht hr hl
  rw [ht]
  exact delete_data_first_match del r hr l1 l2 hl

/-- C9 witness: deleting (name="Ann", mail="a@x.com", week=3) from a table
without such a row is a reported no-op; deleting it when present removes
exactly that row and flushes. -/
theorem c9_witness :
    delete_data delAnn [exB] =
      ([exB], false, "No matching data found to delete") ∧
    delete_data delAnn [exB, delAnn] =
      ([exB], true, "Weekly data deleted successfully") :=
  ⟨(c9_delete_noop_or_single_removal delAnn [exB]).1 (by decide),
   (c9_delete_noop_or_single_removal delAnn [exB, delAnn]).2
     [exB] [] delAnn rfl (by decide) (by decide)⟩

/-- C10.  An authorized week-0 request on an empty table returns the 400
"Invalid week number" response and changes nothing; the week-0 passthrough
response happens exactly when the table is non-empty. -/
theorem c10_week0_empty_table_bad_request (tok : String)
    (fetch : Except Unit (List Assignment))
    (resolve : String → Option String) :
    get_weekly_data_or_common (some tok) tok 0 fetch resolve [] =
      HandlerOutcome.resp (Response.badRequest "Invalid week number")
        [] false ∧
    ∀ t : List RowData,
      ((∃ rows, get_weekly_data_or_common (some tok) tok 0 fetch resolve t =
         HandlerOutcome.resp (Response.okRows rows) t false) ↔ t ≠ []) := by
  constructor
  · unfold get_weekly_data_or_common
    simp
  · intro t
    unfold get_weekly_data_or_common
    by_cases ht : t = []
    · subst ht
      simp
    · simp [ht]

/-- C10 witness: the 400 branch on the empty table, and the passthrough on
a one-row table. -/
theorem c10_witness :
    get_weekly_data_or_common (some "k") "k" 0 (Except.ok []) (fun _ => none)
      [] = HandlerOutcome.resp
        (Response.badRequest "Invalid week number") [] false ∧
    (∃ rows, get_weekly_data_or_common (some "k") "k" 0 (Except.ok [])
      (fun _ => none) [w0Row] =
      HandlerOutcome.resp (Response.okRows rows) [w0Row] false) :=
  ⟨(c10_week0_empty_table_bad_request "k" (Except.ok [])
      (fun _ => none)).1,
   ((c10_week0_empty_table_bad_request "k" (Except.ok [])
      (fun _ => none)).2 [w0Row]).mpr (by decide)⟩

/-- C8.  The claim says an unreachable submission source yields a
`SubmissionFetchError` surfaced to the caller as a 5xx error response.  At
week 1 with a failing fetch, the handler does not return any error
response: it dies in the `unwrap` panic. -/
theorem c8_counterexample :
    ¬ ∃ (msg : String) (tb : List RowData) (w : Bool),
      get_weekly_data_or_common (some "tok") "tok" 1 (Except.error ())
        (fun _ => none) [] =
        HandlerOutcome.resp (Response.serverError msg) tb w := by
  rintro ⟨msg, tb, w, h⟩
  rw [show get_weekly_data_or_common (some "tok") "tok" 1 (Except.error ())
      (fun _ => none) [] = HandlerOutcome.panic [] false from rfl] at h
  exact HandlerOutcome.noConfusion h

/-- C8 (amended).  If the submission fetch fails for an authorized
`week ≥ 1` request, the handler aborts by panicking on the `unwrap` before
any table mutation or durable write: the whole reconciliation is aborted
with no partial commit, but no structured 5xx error response is produced. -/
theorem c8_amended_fetch_error_panics (tok : String) (week : Int)
    (hw : 1 ≤ week) (resolve : String → Option String)
    (t : List RowData) :
    get_weekly_data_or_common (some tok) tok week (Except.error ())
      resolve t = HandlerOutcome.panic t false := by
  unfold get_weekly_data_or_common
  have h0 : ¬ (week = 0 ∧ t ≠ []) := by
    rintro ⟨h, -⟩
    omega
  simp [h0, hw]

/-- C8 witness: a concrete week-2 request with a failing fetch panics with
the table untouched and no durable write. -/
theorem c8_witness :
    get_weekly_data_or_common (some "t0") "t0" 2 (Except.error ())
      (fun _ => none) [yesRow] = HandlerOutcome.panic [yesRow] false :=
  c8_amended_fetch_error_panics "t0" 2 (by decide) (fun _ => none) [yesRow]

/-- C6.  One reconciliation run commits every derived row to the table via
`insert_or_update` unconditionally, and triggers the durable write exactly
when some processed row was default-initialised by the merge step or had
its exercise values changed by the enrichment step. -/
theorem c6_commit_all_flush_iff_changed (week : Int)
    (lookup : String → Option Assignment) (t : List RowData) :
    (reconcile week lookup t).table =
      List.foldl insert_or_update t (reconcile week lookup t).rows ∧
    (reconcile week lookup t).rows =
      (processedPairs week lookup t).map Prod.fst ∧
    ((reconcile week lookup t).wrote = true ↔
      ∃ p ∈ processedPairs week lookup t, p.2 = true) := by
  refine ⟨rfl, rfl, ?_⟩
  show (processedPairs week lookup t).any Prod.snd = true ↔ _
  simp [List.any_eq_true]

/-- Key-match as a proposition. -/
theorem keyMatch_iff (x : RowData) (n : String) (w : Int) :
    (x.name == n && x.week == w) = true ↔ (x.name = n ∧ x.week = w) := by
  simp [Bool.and_eq_true]

/-- Unfolding `findKey` over a cons cell. -/
theorem findKey_cons (x : RowData) (xs : List RowData) (n : String)
    (w : Int) :
    findKey (x :: xs) n w =
      if (x.name == n && x.week == w) = true then some x
      else findKey xs n w := by
  unfold findKey
  by_cases h : (x.name == n && x.week == w) = true
  · rw [if_pos h]
    exact List.find?_cons_of_pos _ h
  · rw [if_neg h]
    exact List.find?_cons_of_neg _ h

/-- After inserting a row, looking its own key up returns exactly it. -/
theorem findKey_insert_self (r : RowData) :
    ∀ t : List RowData,
    findKey (insert_or_update t r) r.name r.week = some r := by
  intro t
  induction t with
  | nil =>
    rw [show insert_or_update [] r = [r] from rfl, findKey_cons]
    simp
  | cons x xs ih =>
    unfold insert_or_update
    by_cases hx : (x.name == r.name && x.week == r.week) = true
    · rw [if_pos hx, findKey_cons]
      simp
    · rw [if_neg hx, findKey_cons, if_neg hx, ih]

/-- Inserting a row with a different key leaves a key's lookup unchanged. -/
theorem findKey_insert_other (r : RowData) (n : String) (w : Int)
    (h : ¬ (n = r.name ∧ w = r.week)) :
    ∀ t : List RowData,
    findKey (insert_or_update t r) n w = findKey t n w := by
  have hrf : ¬ (r.name == n && r.week == w) = true := by
    rw [keyMatch_iff]
    rintro ⟨h1, h2⟩
    exact h ⟨h1.symm, h2.symm⟩
  intro t
  induction t with
  | nil =>
    rw [show insert_or_update [] r = [r] from rfl, findKey_cons, if_neg hrf]
  | cons x xs ih =>
    unfold insert_or_update
    by_cases hx : (x.name == r.name && x.week == r.week) = true
    · rw [if_pos hx]
      have hk := (keyMatch_iff x r.name r.week).mp hx
      have hxf : ¬ (x.name == n && x.week == w) = true := by
        rw [keyMatch_iff]
        rintro ⟨h1, h2⟩
        exact h ⟨h1.symm.trans hk.1, h2.symm.trans hk.2⟩
      rw [findKey_cons, if_neg hrf, findKey_cons, if_neg hxf]
    · rw [if_neg hx, findKey_cons, findKey_cons, ih]

/-- A fold of inserts whose rows all avoid a key leaves that key's lookup
unchanged. -/
theorem findKey_foldl_untouched (n : String) (w : Int) :
    ∀ (rows : List RowData) (t : List RowData),
    (∀ r ∈ rows, ¬ (n = r.name ∧ w = r.week)) →
    findKey (List.foldl insert_or_update t rows) n w = findKey t n w := by
  intro rows
  induction rows with
  | nil => intro t _; rfl
  | cons r rs ih =>
    intro t h
    rw [List.foldl_cons,
      ih (insert_or_update t r) (fun x hx => h x (List.mem_cons_of_mem r hx)),
      findKey_insert_other r n w (h r (by simp)) t]

/-- After the batch of inserts of rows with pairwise distinct names, all
stamped with the target week, every one of them is found under its key. -/
theorem findKey_foldl_insert (W : Int) :
    ∀ (rows : List RowData) (t : List RowData),
    (∀ r ∈ rows, r.week = W) →
    ((rows.map (fun r => r.name)).Nodup) →
    ∀ r ∈ rows,
      findKey (List.foldl insert_or_update t rows) r.name W = some r := by
  intro rows
  induction rows with
  | nil => intro t _ _ r hr; cases hr
  | cons x xs ih =>
    intro t hW hnd r hr
    rw [List.foldl_cons]
    rw [List.map_cons, List.nodup_cons] at hnd
    rcases List.mem_cons.mp hr with h | h
    · subst h
      have hxs : ∀ y ∈ xs, ¬ (r.name = y.name ∧ W = y.week) := by
        intro y hy hcon
        apply hnd.1
        rw [hcon.1]
        exact List.mem_map_of_mem _ hy
      rw [findKey_foldl_untouched r.name W xs (insert_or_update t r) hxs]
      have hw : r.week = W := hW r (by simp)
      rw [← hw]
      exact findKey_insert_self r t
    · exact ih (insert_or_update t x)
        (fun y hy => hW y (List.mem_cons_of_mem x hy)) hnd.2 r h

/-- Inserting a row of a different week leaves a week's filter unchanged. -/
theorem filter_insert_other_week (r : RowData) (v : Int)
    (hrv : ¬ r.week = v) :
    ∀ t : List RowData,
    (insert_or_update t r).filter (fun x => x.week == v) =
      t.filter (fun x => x.week == v) := by
  have hrf : (r.week == v) = false := by simp [hrv]
  intro t
  induction t with
  | nil =>
    show List.filter _ [r] = List.filter _ []
    simp [List.filter, hrf]
  | cons x xs ih =>
    unfold insert_or_update
    by_cases hx : (x.name == r.name && x.week == r.week) = true
    · rw [if_pos hx]
      have hxw : x.week = r.week := ((keyMatch_iff x r.name r.week).mp hx).2
      have hxf : (x.week == v) = false := by simp [hxw, hrv]
      simp [List.filter_cons, hrf, hxf]
    · rw [if_neg hx]
      simp only [List.filter_cons, ih]

/-- The batch of inserts of target-week rows leaves any other week's filter
unchanged. -/
theorem filter_foldl_insert_other_week (v : Int) :
    ∀ (rows : List RowData) (t : List RowData),
    (∀ r ∈ rows, ¬ r.week = v) →
    (List.foldl insert_or_update t rows).filter (fun x => x.week == v) =
      t.filter (fun x => x.week == v) := by
  intro rows
  induction rows with
  | nil => intro t _; rfl
  | cons r rs ih =>
    intro t h
    rw [List.foldl_cons,
      ih (insert_or_update t r) (fun x hx => h x (List.mem_cons_of_mem r hx)),
      filter_insert_other_week r v (h r (by simp)) t]

/-- Processing a row never changes its name. -/
theorem processRow_name (week : Int) (lookup : String → Option Assignment)
    (table : List RowData) (gid : Int) (i : Nat) (p : RowData) :
    (processRow week lookup table gid i p).1.name = p.name := by
  show (enrichStep week lookup (mergeStep table week
    { (allocStep week gid i p).1 with week := week }).1).1.name = p.name
  rw [enrichStep_name, mergeStep_name]
  show (allocStep week gid i p).1.name = p.name
  exact allocStep_name week gid i p

/-- Every processed row carries the target week. -/
theorem processRow_week (week : Int) (lookup : String → Option Assignment)
    (table : List RowData) (gid : Int) (i : Nat) (p : RowData) :
    (processRow week lookup table gid i p).1.week = week := by
  show (enrichStep week lookup (mergeStep table week
    { (allocStep week gid i p).1 with week := week }).1).1.week = week
  rw [enrichStep_week, mergeStep_week]

/-- The derived rows' names are the prior-week rows' names, in order. -/
theorem processList_names (week : Int) (lookup : String → Option Assignment)
    (table : List RowData) :
    ∀ (l : List (Nat × RowData)) (gid : Int),
    ((processList week lookup table gid l).1.map Prod.fst).map
        (fun r => r.name) =
      l.map (fun ip => ip.2.name) := by
  intro l
  induction l with
  | nil => intro _; rfl
  | cons ip rest ih =>
    intro gid
    simp only [processList, List.map_cons]
    rw [processRow_name, ih]

/-- Every derived row is stamped with the target week. -/
theorem processList_weeks (week : Int) (lookup : String → Option Assignment)
    (table : List RowData) :
    ∀ (l : List (Nat × RowData)) (gid : Int) (q : RowData × Bool),
    q ∈ (processList week lookup table gid l).1 → q.1.week = week := by
  intro l
  induction l with
  | nil => intro _ q hq; cases hq
  | cons ip rest ih =>
    intro gid q hq
    simp only [processList] at hq
    rcases List.mem_cons.mp hq with h | h
    · rw [h]
      exact processRow_week week lookup table gid ip.1 ip.2
    · exact ih _ q h

/-- Carrying fields from a row that agrees on all remaining fields is the
identity. -/
theorem carryFields_eq_of_skel (a b : RowData)
    (h1 : b.name = a.name) (h2 : b.mail = a.mail) (h3 : b.week = a.week)
    (h4 : b.group_id = a.group_id) (h5 : b.ta = a.ta) :
    carryFields a b = b := by
  cases a
  cases b
  simp only [carryFields]
  simp_all

/-- Processing a single row against a table that already holds its own
processed output reproduces that output and raises no flag. -/
theorem processRow_stable (week : Int) (lookup : String → Option Assignment)
    (t t2 : List RowData) (gid : Int) (i : Nat) (p : RowData)
    (h : findKey t2 (processRow week lookup t gid i p).1.name week =
      some (processRow week lookup t gid i p).1) :
    processRow week lookup t2 gid i p =
      ((processRow week lookup t gid i p).1,
       (processRow week lookup t gid i p).2.1, false) := by
  have hname : (processRow week lookup t gid i p).1.name =
      ({ (allocStep week gid i p).1 with week := week } : RowData).name := by
    show (enrichStep week lookup (mergeStep t week
      { (allocStep week gid i p).1 with week := week }).1).1.name = _
    rw [enrichStep_name, mergeStep_name]
  have hfound : findKey t2
      ({ (allocStep week gid i p).1 with week := week } : RowData).name week =
      some (processRow week lookup t gid i p).1 := by
    rw [← hname]
    exact h
  have hskel1 : (processRow week lookup t gid i p).1.mail =
      ({ (allocStep week gid i p).1 with week := week } : RowData).mail := by
    show (enrichStep week lookup (mergeStep t week
      { (allocStep week gid i p).1 with week := week }).1).1.mail = _
    rw [enrichStep_mail, mergeStep_mail]
  have hskel2 : (processRow week lookup t gid i p).1.week =
      ({ (allocStep week gid i p).1 with week := week } : RowData).week := by
    show (enrichStep week lookup (mergeStep t week
      { (allocStep week gid i p).1 with week := week }).1).1.week = _
    rw [enrichStep_week, mergeStep_week]
  have hskel3 : (processRow week lookup t gid i p).1.group_id =
      ({ (allocStep week gid i p).1 with week := week } : RowData).group_id
      := by
    show (enrichStep week lookup (mergeStep t week
      { (allocStep week gid i p).1 with week := week }).1).1.group_id = _
    rw [enrichStep_group_id, mergeStep_group_id]
  have hskel4 : (processRow week lookup t gid i p).1.ta =
      ({ (allocStep week gid i p).1 with week := week } : RowData).ta := by
    show (enrichStep week lookup (mergeStep t week
      { (allocStep week gid i p).1 with week := week }).1).1.ta = _
    rw [enrichStep_ta, mergeStep_ta]
  have hm2 : mergeStep t2 week
      { (allocStep week gid i p).1 with week := week } =
      ((processRow week lookup t gid i p).1, false) := by
    rw [mergeStep_of_found t2 week _ _ hfound]
    rw [carryFields_eq_of_skel _ _ hname hskel1 hskel2 hskel3 hskel4]
  have he2 : enrichStep week lookup (processRow week lookup t gid i p).1 =
      ((processRow week lookup t gid i p).1, false) := by
    show enrichStep week lookup (enrichStep week lookup (mergeStep t week
      { (allocStep week gid i p).1 with week := week }).1).1 =
      ((enrichStep week lookup (mergeStep t week
      { (allocStep week gid i p).1 with week := week }).1).1, false)
    exact enrichStep_idem week lookup _
  show ((enrichStep week lookup (mergeStep t2 week
      { (allocStep week gid i p).1 with week := week }).1).1,
    (allocStep week gid i p).2,
    (mergeStep t2 week
      { (allocStep week gid i p).1 with week := week }).2 ||
      (enrichStep week lookup (mergeStep t2 week
      { (allocStep week gid i p).1 with week := week }).1).2) = _
  rw [hm2]
  show ((enrichStep week lookup (processRow week lookup t gid i p).1).1,
    (allocStep week gid i p).2,
    false || (enrichStep week lookup
      (processRow week lookup t gid i p).1).2) = _
  rw [he2]
  rfl

/-- Processing the prior-week list against a table that already holds
every processed output reproduces the outputs with no flags and the same
final counter. -/
theorem processList_stable (week : Int)
    (lookup : String → Option Assignment) (t t2 : List RowData) :
    ∀ (l : List (Nat × RowData)) (gid : Int),
    (∀ q ∈ (processList week lookup t gid l).1,
      findKey t2 q.1.name week = some q.1) →
    processList week lookup t2 gid l =
      ((processList week lookup t gid l).1.map (fun q => (q.1, false)),
       (processList week lookup t gid l).2) := by
  intro l
  induction l with
  | nil => intro _ _; rfl
  | cons ip rest ih =>
    intro gid hfind
    have hhead : findKey t2
        (processRow week lookup t gid ip.1 ip.2).1.name week =
        some (processRow week lookup t gid ip.1 ip.2).1 := by
      have := hfind ((processRow week lookup t gid ip.1 ip.2).1,
        (processRow week lookup t gid ip.1 ip.2).2.2)
        (by simp only [processList]; exact List.mem_cons_self _ _)
      exact this
    have hstep := processRow_stable week lookup t t2 gid ip.1 ip.2 hhead
    have htail := ih (processRow week lookup t gid ip.1 ip.2).2.1
      (fun q hq => hfind q
        (by simp only [processList]; exact List.mem_cons_of_mem _ hq))
    show (((processRow week lookup t2 gid ip.1 ip.2).1,
      (processRow week lookup t2 gid ip.1 ip.2).2.2) ::
      (processList week lookup t2
        (processRow week lookup t2 gid ip.1 ip.2).2.1 rest).1,
      (processList week lookup t2
        (processRow week lookup t2 gid ip.1 ip.2).2.1 rest).2) = _
    rw [hstep]
    show (((processRow week lookup t gid ip.1 ip.2).1, false) ::
      (processList week lookup t2
        (processRow week lookup t gid ip.1 ip.2).2.1 rest).1,
      (processList week lookup t2
        (processRow week lookup t gid ip.1 ip.2).2.1 rest).2) = _
    rw [htail]
    simp only [processList, List.map_cons]

/-- The names of the enumerated rows are the rows' names. -/
theorem enum_map_snd_name (L : List RowData) :
    L.enum.map (fun ip => ip.2.name) = L.map (fun r => r.name) := by
  rw [show (fun (ip : Nat × RowData) => ip.2.name) =
    ((fun r => r.name) ∘ Prod.snd) from rfl, ← List.map_map,
    List.enum_map_snd]

/-- Distinct `(name, week)` keys on a fixed-week list give distinct names. -/
theorem nodup_names_of_nodup_keys (w : Int) :
    ∀ L : List RowData, (∀ r ∈ L, r.week = w) →
    ((L.map (fun r => (r.name, r.week))).Nodup) →
    ((L.map (fun r => r.name)).Nodup) := by
  intro L
  induction L with
  | nil => intro _ _; simp
  | cons x xs ih =>
    intro hw hk
    simp only [List.map_cons, List.nodup_cons] at hk ⊢
    refine ⟨?_, ih (fun r hr => hw r (List.mem_cons_of_mem x hr)) hk.2⟩
    intro hmem
    rcases List.mem_map.mp hmem with ⟨y, hy, hyname⟩
    apply hk.1
    have hmem2 : (y.name, y.week) ∈ xs.map (fun r => (r.name, r.week)) :=
      List.mem_map_of_mem _ hy
    have hxw : x.week = w := hw x (List.mem_cons_self x xs)
    have hyw : y.week = w := hw y (List.mem_cons_of_mem x hy)
    rw [show ((x.name, x.week) : String × Int) = (y.name, y.week) from by
      rw [hyname, hxw, hyw]]
    exact hmem2

/-- C7.  Under the data-model invariant (at most one row per
`(name, week)`), running the reconciliation twice for the same week and
submission set, with the second run reading the first run's committed
table, returns the identical row set and flags no change (hence no second
durable write). -/
theorem c7_reconcile_idempotent (week : Int) (hw : 1 ≤ week)
    (lookup : String → Option Assignment) (t : List RowData)
    (hu : uniqueKeys t) :
    (reconcile week lookup (reconcile week lookup t).table).rows =
      (reconcile week lookup t).rows ∧
    (reconcile week lookup (reconcile week lookup t).table).changed =
      false ∧
    (reconcile week lookup (reconcile week lookup t).table).wrote = false
    := by
  have htable : (reconcile week lookup t).table =
      List.foldl insert_or_update t (reconcile week lookup t).rows := rfl
  have hW : ∀ r ∈ (reconcile week lookup t).rows, r.week = week := by
    intro r hr
    rcases List.mem_map.mp hr with ⟨q, hq, hqr⟩
    rw [← hqr]
    exact processList_weeks week lookup t _ (-1) q hq
  have hfilter : ((reconcile week lookup t).table).filter
      (fun x => x.week == week - 1) =
      t.filter (fun x => x.week == week - 1) := by
    rw [htable]
    apply filter_foldl_insert_other_week
    intro r hr
    have := hW r hr
    omega
  have hsorted : sortedPrev (reconcile week lookup t).table week =
      sortedPrev t week := by
    unfold sortedPrev
    rw [hfilter]
  have hnamesf : ((t.filter (fun r => r.week == week - 1)).map
      (fun r => r.name)).Nodup := by
    apply nodup_names_of_nodup_keys (week - 1)
    · intro r hr
      have := (List.mem_filter.mp hr).2
      rwa [beq_iff_eq] at this
    · exact List.Nodup.sublist
        ((List.filter_sublist t).map (fun r => (r.name, r.week))) hu
  have hnodup_prev : ((sortedPrev t week).map (fun r => r.name)).Nodup := by
    have hperm : (sortedPrev t week).Perm
        (t.filter (fun r => r.week == week - 1)) :=
      List.perm_insertionSort _ _
    exact ((hperm.map (fun r => r.name)).nodup_iff).mpr hnamesf
  have hnames1 : ((reconcile week lookup t).rows).map (fun r => r.name) =
      (sortedPrev t week).map (fun r => r.name) := by
    show (((processList week lookup t (-1)
      (sortedPrev t week).enum).1.map Prod.fst).map (fun r => r.name)) = _
    rw [processList_names, enum_map_snd_name]
  have hnodup1 : (((reconcile week lookup t).rows).map
      (fun r => r.name)).Nodup := by
    rw [hnames1]
    exact hnodup_prev
  have hfind : ∀ q ∈ (processList week lookup t (-1)
      (sortedPrev t week).enum).1,
      findKey (reconcile week lookup t).table q.1.name week = some q.1 := by
    intro q hq
    rw [htable]
    exact findKey_foldl_insert week (reconcile week lookup t).rows t hW
      hnodup1 q.1 (List.mem_map_of_mem Prod.fst hq)
  have hstable := processList_stable week lookup t
    ((reconcile week lookup t).table) (sortedPrev t week).enum (-1) hfind
  refine ⟨?_, ?_, ?_⟩
  · show (processList week lookup (reconcile week lookup t).table (-1)
      (sortedPrev (reconcile week lookup t).table week).enum).1.map
        Prod.fst = _
    rw [hsorted, hstable, List.map_map]
    rfl
  · show (processList week lookup (reconcile week lookup t).table (-1)
      (sortedPrev (reconcile week lookup t).table week).enum).1.any
        Prod.snd = false
    rw [hsorted, hstable]
    simp [List.any_map]
  · show (processList week lookup (reconcile week lookup t).table (-1)
      (sortedPrev (reconcile week lookup t).table week).enum).1.any
        Prod.snd = false
    rw [hsorted, hstable]
    simp [List.any_map]

/-- C7 witness: a singleton week-0 table reconciled twice for week 1 gives
identical rows and no change flag on the second run. -/
theorem c7_witness :
    (1 ≤ (1 : Int)) ∧ uniqueKeys [w0Row] ∧
    ((reconcile 1 (fun _ => none)
        (reconcile 1 (fun _ => none) [w0Row]).table).rows =
      (reconcile 1 (fun _ => none) [w0Row]).rows ∧
     (reconcile 1 (fun _ => none)
        (reconcile 1 (fun _ => none) [w0Row]).table).changed = false ∧
     (reconcile 1 (fun _ => none)
        (reconcile 1 (fun _ => none) [w0Row]).table).wrote = false) :=
  ⟨by decide, by decide,
   c7_reconcile_idempotent 1 (by decide) (fun _ => none) [w0Row]
     (by decide)⟩

/-- C6 witness: a week-1 run over one week-0 row commits that derived row
and flushes because the merge step default-initialised it. -/
theorem c6_witness :
    (reconcile 1 (fun _ => none) [w0Row]).table =
      List.foldl insert_or_update [w0Row]
        (reconcile 1 (fun _ => none) [w0Row]).rows ∧
    (reconcile 1 (fun _ => none) [w0Row]).rows =
      (processedPairs 1 (fun _ => none) [w0Row]).map Prod.fst ∧
    ((reconcile 1 (fun _ => none) [w0Row]).wrote = true ↔
      ∃ p ∈ processedPairs 1 (fun _ => none) [w0Row], p.2 = true) :=
  c6_commit_all_flush_iff_changed 1 (fun _ => none) [w0Row]

end AdminPanel
